import Mathlib

/-!
Verification of the wasmtime host-side HTTP bridge
(`crates/wasi-experimental-http-wasmtime/src/lib.rs`).

The embedding below translates the Rust source into Lean:
guest linear memory is a `List Nat` of bytes, the handle table is an
association list keyed by `Nat` handles, and each host call is a pure
function threading the state, the guest memory and an `Except`-style
result.  Functions provided by external crates (the `url` parser,
`std::str::from_utf8`, `Method::from_str`, `string_to_header_map`, and
the network dispatch itself) are abstracted as function parameters, so
every theorem holds for any implementation of those collaborators.
A Rust panic (reachable through `Option::unwrap` in `is_allowed`) is
modelled by an outer `Option` layer: `none` means the call panics.
-/

set_option autoImplicit false

namespace WasiHttp

/-- The `HttpError` enum of the source, with the diagnostic payloads that
matter to the host calls (`InvalidHandle` carries the handle,
`DestinationNotAllowed` carries the URL); payloads of wrapped foreign
errors are dropped. -/
inductive HttpError where
  | invalidHandle (handle : Nat)
  | memoryNotFound
  | memoryAccessError
  | bufferTooSmall
  | headerNotFound
  | utf8Error
  | destinationNotAllowed (url : String)
  | invalidMethod
  | invalidEncoding
  | invalidUrl
  | requestError
  | runtimeError
  | tooManySessions
  deriving DecidableEq, Repr

/-- The `From<HttpError> for u32` impl: the numeric outcome code table. -/
def errorCode : HttpError → Nat
  | .invalidHandle _ => 1
  | .memoryNotFound => 2
  | .memoryAccessError => 3
  | .bufferTooSmall => 4
  | .headerNotFound => 5
  | .utf8Error => 6
  | .destinationNotAllowed _ => 7
  | .invalidMethod => 8
  | .invalidEncoding => 9
  | .invalidUrl => 10
  | .requestError => 11
  | .runtimeError => 12
  | .tooManySessions => 13

/-- The single integer returned across the boundary by each linker
wrapper: 0 on success, the error's code otherwise. -/
def outcome : Except HttpError Unit → Nat
  | .ok _ => 0
  | .error e => errorCode e

/-- The constant `2^32`: the size of the `u32` address/handle space. -/
def u32Size : Nat := 4294967296

/-- Little-endian bytes of a `u32` (`u32::to_le_bytes`). -/
def u32le (n : Nat) : List Nat :=
  [n % 256, n / 256 % 256, n / 65536 % 256, n / 16777216 % 256]

/-- Little-endian bytes of a `u16` (`u16::to_le_bytes`). -/
def u16le (n : Nat) : List Nat :=
  [n % 256, n / 256 % 256]

/-! ### Memory bridge -/

/-- Source `slice_from_memory`: bounds-checked read of `len` bytes at `offset`
from guest linear memory.  `offset.checked_add(len)` failing (the sum
does not fit in a `u32`) or the sum exceeding `memory.data_size()` both
yield `BufferTooSmall`; otherwise the bytes are returned. -/
def slice_from_memory (mem : List Nat) (offset len : Nat) :
    Except HttpError (List Nat) :=
  if u32Size ≤ offset + len then .error .bufferTooSmall
  else if mem.length < offset + len then .error .bufferTooSmall
  else .ok ((mem.drop offset).take len)

/-- Source `string_from_memory`: `slice_from_memory` followed by UTF-8 decoding
(`std::str::from_utf8`, abstracted as the `decode` parameter; a decode
failure is the source's `UTF8Error`). -/
def string_from_memory (decode : List Nat → Option String)
    (mem : List Nat) (offset len : Nat) : Except HttpError String :=
  match slice_from_memory mem offset len with
  | .error e => .error e
  | .ok bytes =>
    match decode bytes with
    | none => .error .utf8Error
    | some s => .ok s

/-- Model of `wasmtime::Memory::write`: all-or-nothing bounded write of `data` at
`offset`; out of bounds yields the wrapped `MemoryAccessError`. -/
def memWrite (mem : List Nat) (offset : Nat) (data : List Nat) :
    Except HttpError (List Nat) :=
  if mem.length < offset + data.length then .error .memoryAccessError
  else .ok (mem.take offset ++ data ++ mem.drop (offset + data.length))

/-- Read back `len` bytes at `offset` of a memory snapshot (used only to
state theorems about what a call wrote). -/
def readBytes (mem : List Nat) (offset len : Nat) : List Nat :=
  (mem.drop offset).take len

/-! ### Access control -/

/-- The view of a parsed URL that `is_allowed` consumes: the result of
`Url::host_str`, which is `None` for URLs without a host component. -/
structure Url where
  hostPart : Option String
  deriving DecidableEq, Repr

/-- Fail-fast collection of `Option` results over a list: the model of
`Iterator::collect::<Result<Vec<_>, _>>` (and of a `map` whose closure
may panic, when the failure is an `unwrap`). -/
def collectOption {α β : Type} (f : α → Option β) : List α → Option (List β)
  | [] => some []
  | a :: l =>
    match f a with
    | none => none
    | some b =>
      match collectOption f l with
      | none => none
      | some bs => some (b :: bs)

/-- Source `is_allowed`, parametric in the external URL parser `parse`
(`Url::parse`, `none` on parse failure).  The outer `Option` models
divergence: `none` is the panic of `host_str().unwrap()` on an
allow-list entry that parsed but has no host; `some` carries the
returned `Result`. -/
def is_allowed (parse : String → Option Url) (url : String)
    (allowed_domains : Option (List String)) :
    Option (Except HttpError Bool) :=
  match parse url with
  | none => some (.error .invalidUrl)
  | some u =>
    match u.hostPart with
    | none => some (.error .invalidUrl)
    | some url_host =>
      match allowed_domains with
      | none => some (.ok false)
      | some domains =>
        match collectOption parse domains with
        | none => some (.error .invalidUrl)
        | some allowed =>
          match collectOption (fun v => v.hostPart) allowed with
          | none => none
          | some a => some (.ok (a.contains url_host))

/-- Characters that may appear in the host component of the model
parser below. -/
def hostChar (c : Char) : Bool :=
  c != '/' && c != ':' && c != '?' && c != '#'

/-- Helper of `parseUrlModel`: scan for the first `:`; `://` introduces a
host, a bare `:` an opaque (host-less) URL. -/
def splitAtSchemeSep : List Char → Option Url
  | [] => none
  | ':' :: '/' :: '/' :: rest =>
    let host := rest.takeWhile hostChar
    if host.isEmpty then none else some ⟨some (String.mk host)⟩
  | ':' :: _ => some ⟨none⟩
  | _ :: rest => splitAtSchemeSep rest

/-- Modelled from the spec: a stand-in for the external `url` crate's
`Url::parse` / `host_str` pair, used only to instantiate the `parse`
parameter of `is_allowed` in concrete examples.  Hierarchical
`scheme://host/...` URLs parse with a host, opaque `scheme:...` URLs
(such as `mailto:`) parse with no host, anything else fails to parse. -/
def parseUrlModel (s : String) : Option Url :=
  splitAtSchemeSep s.toList

/-! ### Data model: bodies, responses, the handle table -/

/-- Source `Body`: an owned byte buffer plus a read cursor. -/
structure Body where
  bytes : List Nat
  pos : Nat
  deriving DecidableEq, Repr

/-- The view of `http::HeaderMap` the host calls use: an association
list from (lower-case, as that crate normalises names) header names to
value bytes. -/
abbrev HeaderMap : Type := List (String × List Nat)

/-- Model of `HeaderMap::get`: first value stored under the name. -/
def headersGet (hs : HeaderMap) (k : String) : Option (List Nat) :=
  match hs with
  | [] => none
  | (k', v) :: rest => if k' = k then some v else headersGet rest k

/-- A pending `Response`: headers plus body cursor. -/
structure Response where
  headers : HeaderMap
  body : Body
  deriving DecidableEq, Repr

/-- The per-instance `State`: the handle table
(`HashMap<WasiHandle, Response>`, as an association list) and the
allocation cursor `current_handle`. -/
structure State where
  responses : List (Nat × Response)
  current_handle : Nat
  deriving DecidableEq, Repr

/-- Model of `HashMap::get` on the handle table. -/
def mapGet (m : List (Nat × Response)) (k : Nat) : Option Response :=
  match m with
  | [] => none
  | (k', v) :: rest => if k' = k then some v else mapGet rest k

/-- Model of `HashMap::insert` (replacing any previous entry for the key). -/
def mapInsert (m : List (Nat × Response)) (k : Nat) (v : Response) :
    List (Nat × Response) :=
  (k, v) :: m.filter (fun p => p.1 != k)

/-- Model of `HashMap::remove`. -/
def mapRemove (m : List (Nat × Response)) (k : Nat) :
    List (Nat × Response) :=
  m.filter (fun p => p.1 != k)

/-! ### Host calls: close, body_read, header_get -/

/-- Model of `str::to_ascii_lowercase` on one character. -/
def asciiLowerChar (c : Char) : Char :=
  if 'A' ≤ c ∧ c ≤ 'Z' then Char.ofNat (c.toNat + 32) else c

/-- Model of `str::to_ascii_lowercase`. -/
def asciiLowercase (s : String) : String :=
  String.mk (s.toList.map asciiLowerChar)

namespace HostCalls

/-- Source `HostCalls::close`: `responses.remove(&handle)` then `Ok(())`;
removing an absent handle is still a success. -/
def close (st : State) (handle : Nat) : State × Except HttpError Unit :=
  ({ st with responses := mapRemove st.responses handle }, .ok ())

/-- Source `HostCalls::body_read`: look the handle up, copy
`min(buf_len, unread)` bytes from the body cursor into guest memory at
`buf_ptr`, advance the cursor by the amount copied, then write that
amount (as a little-endian `u32`) at `buf_read_ptr`.  Each result
carries the state and memory as left behind by the call (a failing
second write leaves the cursor already advanced, as in the source). -/
def body_read (st : State) (mem : List Nat)
    (handle buf_ptr buf_len buf_read_ptr : Nat) :
    State × List Nat × Except HttpError Unit :=
  match mapGet st.responses handle with
  | none => (st, mem, .error (.invalidHandle handle))
  | some resp =>
    let available := min buf_len (resp.body.bytes.length - resp.body.pos)
    match memWrite mem buf_ptr
        ((resp.body.bytes.drop resp.body.pos).take available) with
    | .error e => (st, mem, .error e)
    | .ok mem1 =>
      let body1 : Body := ⟨resp.body.bytes, resp.body.pos + available⟩
      let resp1 : Response := ⟨resp.headers, body1⟩
      let st1 : State := ⟨mapInsert st.responses handle resp1, st.current_handle⟩
      match memWrite mem1 buf_read_ptr (u32le available) with
      | .error e => (st1, mem1, .error e)
      | .ok mem2 => (st1, mem2, .ok ())

/-- Source `HostCalls::header_get`: look the handle up, read the header name
from guest memory, lower-case it, look it up in the response's headers;
copy the value only if it fits in `value_len` and then record its
length.  The state is never modified. -/
def header_get (decode : List Nat → Option String) (st : State)
    (mem : List Nat)
    (handle name_ptr name_len value_ptr value_len value_written_ptr : Nat) :
    List Nat × Except HttpError Unit :=
  match mapGet st.responses handle with
  | none => (mem, .error (.invalidHandle handle))
  | some resp =>
    match string_from_memory decode mem name_ptr name_len with
    | .error e => (mem, .error e)
    | .ok name =>
      match headersGet resp.headers (asciiLowercase name) with
      | none => (mem, .error .headerNotFound)
      | some value =>
        if value_len < value.length then (mem, .error .bufferTooSmall)
        else
          match memWrite mem value_ptr value with
          | .error e => (mem, .error e)
          | .ok mem1 =>
            match memWrite mem1 value_written_ptr (u32le value.length) with
            | .error e => (mem1, .error e)
            | .ok mem2 => (mem2, .ok ())

end HostCalls

/-! ### Remaining operations: handle allocation and issue-request -/

/-- The memory produced by a successful `memWrite` (named so results of
calls can be stated explicitly). -/
def writtenMem (mem : List Nat) (off : Nat) (data : List Nat) : List Nat :=
  mem.take off ++ data ++ mem.drop (off + data.length)

/-- The handle-probing loop of `HostCalls::req`: while the slot at
`current` is occupied, step to `(current + 1) % 2^32` (the wrap of the
`u32` increment) and fail with `TooManySessions` upon returning to
`initial`.  `fuel` is `u32Size` at the entry point, which strictly
dominates the loop's iteration count, so the `0` branch is unreachable;
it returns the same error as the exhausted loop. -/
def probeLoop (resp : List (Nat × Response)) (initial : Nat) :
    Nat → Nat → Except HttpError Nat
  | _, 0 => .error .tooManySessions
  | current, fuel + 1 =>
    if (mapGet resp current).isSome then
      let next := (current + 1) % u32Size
      if next = initial then .error .tooManySessions
      else probeLoop resp initial next fuel
    else .ok current

/-- The allocation step of `HostCalls::req` (the `initial_handle` /
`while` block): probe upward from the cursor, insert the response at
the first free slot, and leave the cursor at that slot. -/
def allocHandle (st : State) (r : Response) :
    Except HttpError (State × Nat) :=
  match probeLoop st.responses st.current_handle st.current_handle
      u32Size with
  | .error e => .error e
  | .ok h => .ok (⟨mapInsert st.responses h r, h⟩, h)

/-- What the request dispatcher hands back on success: status code,
response headers, response body bytes. -/
structure NetResponse where
  status : Nat
  headers : HeaderMap
  body : List Nat
  deriving DecidableEq, Repr

instance decEqExceptHttp {α : Type} [DecidableEq α] :
    DecidableEq (Except HttpError α)
  | .ok a, .ok b =>
    match decEq a b with
    | isTrue h => isTrue (h ▸ rfl)
    | isFalse h => isFalse (fun hc => h (Except.ok.inj hc))
  | .ok _, .error _ => isFalse (fun hc => Except.noConfusion hc)
  | .error _, .ok _ => isFalse (fun hc => Except.noConfusion hc)
  | .error e, .error e' =>
    match decEq e e' with
    | isTrue h => isTrue (h ▸ rfl)
    | isFalse h => isFalse (fun hc => h (Except.error.inj hc))

/-- The observable outcome of one `HostCalls::req` call: final state,
final guest memory, whether the network dispatcher was invoked, and the
result crossing the boundary. -/
structure ReqOutcome where
  st : State
  mem : List Nat
  netCalled : Bool
  result : Except HttpError Unit
  deriving DecidableEq, Repr

/-- Source `HostCalls::req`.  External collaborators are parameters: `parse`
(`Url::parse`/`host_str`), `decode` (`std::str::from_utf8`),
`methodParse` (`Method::from_str`), `headersParse`
(`string_to_header_map`), and `net` (the `request` dispatcher, given
URL, method, headers and body).  The call reads the URL, method, body
and header block out of guest memory, gates on `is_allowed`, dispatches
the network call, writes the status code, allocates a handle, and
writes the handle back.  `none` models a panic propagating out of
`is_allowed`; `netCalled` records whether `net` was consulted. -/
def req (parse : String → Option Url) (decode : List Nat → Option String)
    (methodParse : String → Option String)
    (headersParse : String → Option HeaderMap)
    (net : String → String → HeaderMap → List Nat →
      Except HttpError NetResponse)
    (allowed_hosts : Option (List String))
    (st : State) (mem : List Nat)
    (url_ptr url_len method_ptr method_len : Nat)
    (req_headers_ptr req_headers_len req_body_ptr req_body_len : Nat)
    (status_code_ptr res_handle_ptr : Nat) : Option ReqOutcome :=
  match string_from_memory decode mem url_ptr url_len with
  | .error e => some ⟨st, mem, false, .error e⟩
  | .ok url =>
    match string_from_memory decode mem method_ptr method_len with
    | .error e => some ⟨st, mem, false, .error e⟩
    | .ok methodStr =>
      match methodParse methodStr with
      | none => some ⟨st, mem, false, .error .invalidMethod⟩
      | some method =>
        match slice_from_memory mem req_body_ptr req_body_len with
        | .error e => some ⟨st, mem, false, .error e⟩
        | .ok req_body =>
          match string_from_memory decode mem req_headers_ptr
              req_headers_len with
          | .error e => some ⟨st, mem, false, .error e⟩
          | .ok headersStr =>
            match headersParse headersStr with
            | none => some ⟨st, mem, false, .error .invalidEncoding⟩
            | some headers =>
              match is_allowed parse url allowed_hosts with
              | none => none
              | some (.error e) => some ⟨st, mem, false, .error e⟩
              | some (.ok false) =>
                some ⟨st, mem, false,
                  .error (.destinationNotAllowed url)⟩
              | some (.ok true) =>
                match net url method headers req_body with
                | .error e => some ⟨st, mem, true, .error e⟩
                | .ok r =>
                  match memWrite mem status_code_ptr (u16le r.status) with
                  | .error e => some ⟨st, mem, true, .error e⟩
                  | .ok mem1 =>
                    match allocHandle st ⟨r.headers, ⟨r.body, 0⟩⟩ with
                    | .error e => some ⟨st, mem1, true, .error e⟩
                    | .ok (st1, handle) =>
                      match memWrite mem1 res_handle_ptr
                          (u32le handle) with
                      | .error e => some ⟨st1, mem1, true, .error e⟩
                      | .ok mem2 => some ⟨st1, mem2, true, .ok ()⟩

/-! ### Specification-level views used only in theorem statements -/

/-- The number of bytes one body-read with capacity `cap` copies:
`min(capacity, unread)`. -/
def chunkLen (resp : Response) (cap : Nat) : Nat :=
  min cap (resp.body.bytes.length - resp.body.pos)

/-- The bytes one body-read with capacity `cap` delivers: `chunkLen`
bytes starting at the cursor. -/
def bodyChunk (resp : Response) (cap : Nat) : List Nat :=
  (resp.body.bytes.drop resp.body.pos).take (chunkLen resp cap)

/-- The response after a body-read with capacity `cap`: same bytes and
headers, cursor advanced by the amount copied. -/
def advanceBody (resp : Response) (cap : Nat) : Response :=
  ⟨resp.headers, ⟨resp.body.bytes, resp.body.pos + chunkLen resp cap⟩⟩

/-! ### Helper lemmas about `collectOption` -/

theorem collectOption_none_iff {α β : Type} (f : α → Option β) (l : List α) :
    collectOption f l = none ↔ ∃ a ∈ l, f a = none := by
  induction l with
  | nil => simp [collectOption]
  | cons a l ih =>
    cases hfa : f a with
    | none => simp [collectOption, hfa]
    | some b =>
      cases hml : collectOption f l with
      | none =>
        obtain ⟨a', ha', hfa'⟩ := ih.mp hml
        simp only [collectOption, hfa, hml]
        exact iff_of_true trivial ⟨a', List.mem_cons_of_mem _ ha', hfa'⟩
      | some bs =>
        simp only [collectOption, hfa, hml]
        constructor
        · intro h; cases h
        · rintro ⟨a', ha'', hfa'⟩
          rcases List.mem_cons.mp ha'' with rfl | ha'
          · rw [hfa] at hfa'; cases hfa'
          · exact absurd (ih.mpr ⟨a', ha', hfa'⟩) (by rw [hml]; simp)

/-- If every element maps to `some`, `collectOption` returns `some us`,
whose members are exactly the images of the list's members. -/
theorem collectOption_total {α β : Type} (f : α → Option β) (l : List α)
    (h : ∀ a ∈ l, (f a).isSome) :
    ∃ us, collectOption f l = some us ∧
      (∀ w ∈ us, ∃ a ∈ l, f a = some w) ∧
      (∀ a ∈ l, ∀ w, f a = some w → w ∈ us) := by
  induction l with
  | nil => exact ⟨[], rfl, by simp, by simp⟩
  | cons a l ih =>
    have ha := h a (by simp)
    obtain ⟨b, hb⟩ := Option.isSome_iff_exists.mp ha
    obtain ⟨us, h1, h2, h3⟩ := ih (fun a' ha' => h a' (by simp [ha']))
    refine ⟨b :: us, ?_, ?_, ?_⟩
    · simp [collectOption, hb, h1]
    · rintro w hw
      rcases List.mem_cons.mp hw with rfl | hw
      · exact ⟨a, by simp, hb⟩
      · obtain ⟨a', ha', hfa'⟩ := h2 w hw
        exact ⟨a', by simp [ha'], hfa'⟩
    · rintro a' ha' w hw
      rcases List.mem_cons.mp ha' with rfl | ha'
      · rw [hb] at hw
        cases hw
        exact List.mem_cons_self _ _
      · exact List.mem_cons_of_mem _ (h3 a' ha' w hw)

/-- The hosts extracted from an allow-list whose entries all parse with
a host: both collection stages succeed, and membership in the resulting
host list is exactly "some entry has this host". -/
theorem collect_parse_hosts (parse : String → Option Url)
    (domains : List String)
    (hd : ∀ d ∈ domains, ∃ w hw, parse d = some w ∧ w.hostPart = some hw) :
    ∃ us hosts, collectOption parse domains = some us ∧
      collectOption (fun v => v.hostPart) us = some hosts ∧
      ∀ x, x ∈ hosts ↔ ∃ d ∈ domains, ∃ w, parse d = some w ∧
        w.hostPart = some x := by
  induction domains with
  | nil => exact ⟨[], [], rfl, rfl, by simp⟩
  | cons d ds ih =>
    obtain ⟨w, hw, hpw, hhw⟩ := hd d (by simp)
    obtain ⟨us, hosts, h1, h2, h3⟩ := ih (fun d' hd' => hd d' (by simp [hd']))
    refine ⟨w :: us, hw :: hosts, ?_, ?_, ?_⟩
    · simp [collectOption, hpw, h1]
    · simp [collectOption, hhw, h2]
    · intro x
      simp only [List.mem_cons]
      constructor
      · rintro (rfl | hx)
        · exact ⟨d, Or.inl rfl, w, hpw, hhw⟩
        · obtain ⟨d', hd', w', h4, h5⟩ := (h3 x).mp hx
          exact ⟨d', Or.inr hd', w', h4, h5⟩
      · rintro ⟨d', (rfl | hd'), w', h4, h5⟩
        · rw [hpw] at h4
          cases h4
          rw [hhw] at h5
          cases h5
          exact Or.inl rfl
        · exact Or.inr ((h3 x).mpr ⟨d', hd', w', h4, h5⟩)

/-! ### C1: memory-bridge bounds checking -/

/-- C1: for every guest-supplied `(offset, length)` pair whose sum
overflows the 32-bit address type or exceeds the current size of guest
memory, `slice_from_memory` (and `string_from_memory` built on it)
fails with the bounds error `BufferTooSmall` (code 4) and produces no
bytes: the call returns the error without any partial copy, and the
function is total, so no panic is possible. -/
theorem c1_slice_from_memory_bounds (decode : List Nat → Option String)
    (mem : List Nat) (offset len : Nat)
    (h : u32Size ≤ offset + len ∨ mem.length < offset + len) :
    slice_from_memory mem offset len = .error .bufferTooSmall ∧
    string_from_memory decode mem offset len = .error .bufferTooSmall ∧
    errorCode .bufferTooSmall = 4 := by
  have hs : slice_from_memory mem offset len = .error .bufferTooSmall := by
    unfold slice_from_memory
    rcases h with h | h
    · rw [if_pos h]
    · by_cases h2 : u32Size ≤ offset + len
      · rw [if_pos h2]
      · rw [if_neg h2, if_pos h]
  refine ⟨hs, ?_, rfl⟩
  unfold string_from_memory
  rw [hs]

/-- Witness for C1: reading 5 bytes at offset 2 of a 3-byte memory is
out of bounds and fails with `BufferTooSmall`. -/
theorem c1_witness :
    (u32Size ≤ 2 + 5 ∨ List.length [7, 7, 7] < 2 + 5) ∧
    (slice_from_memory [7, 7, 7] 2 5 = .error .bufferTooSmall ∧
     string_from_memory (fun _ => none) [7, 7, 7] 2 5 =
       .error .bufferTooSmall ∧
     errorCode .bufferTooSmall = 4) :=
  ⟨Or.inr (by decide),
   c1_slice_from_memory_bounds (fun _ => none) [7, 7, 7] 2 5
     (Or.inr (by decide))⟩

/-! ### C2: fail-closed access control -/

/-- C2: with no allow-list configured (`None`), `is_allowed` returns
`false` for every URL, including syntactically valid ones; an empty
configured allow-list likewise denies every URL.  In both states no URL
can ever be answered `true`, and every URL that parses with a host is
answered `Ok false`. -/
theorem c2_deny_unconfigured_and_empty (parse : String → Option Url)
    (url : String) :
    (∀ b, is_allowed parse url none = some (.ok b) → b = false) ∧
    (∀ b, is_allowed parse url (some []) = some (.ok b) → b = false) ∧
    (∀ u host, parse url = some u → u.hostPart = some host →
      is_allowed parse url none = some (.ok false) ∧
      is_allowed parse url (some []) = some (.ok false)) := by
  refine ⟨?_, ?_, ?_⟩
  · intro b hb
    cases hp : parse url with
    | none => simp only [is_allowed, hp] at hb; simp at hb
    | some u =>
      cases hh : u.hostPart with
      | none => simp only [is_allowed, hp, hh] at hb; simp at hb
      | some host =>
        simp only [is_allowed, hp, hh] at hb
        simp at hb
        exact hb
  · intro b hb
    cases hp : parse url with
    | none => simp only [is_allowed, hp] at hb; simp at hb
    | some u =>
      cases hh : u.hostPart with
      | none => simp only [is_allowed, hp, hh] at hb; simp at hb
      | some host =>
        simp only [is_allowed, hp, hh, collectOption] at hb
        simp at hb
        exact hb
  · intro u host hu hh
    constructor
    · simp only [is_allowed, hu, hh]
    · simp only [is_allowed, hu, hh, collectOption]
      rfl

/-- Witness for C2: `https://example.com` parses with a host, and both
the unconfigured and the empty allow-list deny it. -/
theorem c2_witness :
    parseUrlModel "https://example.com" = some ⟨some "example.com"⟩ ∧
    (is_allowed parseUrlModel "https://example.com" none =
       some (.ok false) ∧
     is_allowed parseUrlModel "https://example.com" (some []) =
       some (.ok false)) :=
  ⟨by decide,
   (c2_deny_unconfigured_and_empty parseUrlModel "https://example.com").2.2
     ⟨some "example.com"⟩ "example.com" (by decide) rfl⟩

/-! ### C3: host-only allow-list comparison -/

/-- C3: for every configured allow-list whose entries all parse as URLs
with a host, `is_allowed` answers `true` exactly when the host of the
parsed requested URL string-matches the host of at least one entry, and
`false` exactly otherwise; schemes, ports and paths play no role (the
comparison only consults the `hostPart` of each parsed URL). -/
theorem c3_host_only_match (parse : String → Option Url) (url : String)
    (domains : List String) (u : Url) (host : String)
    (hu : parse url = some u) (hh : u.hostPart = some host)
    (hd : ∀ d ∈ domains, ∃ w hw, parse d = some w ∧ w.hostPart = some hw) :
    (is_allowed parse url (some domains) = some (.ok true) ↔
      ∃ d ∈ domains, ∃ w, parse d = some w ∧ w.hostPart = some host) ∧
    (is_allowed parse url (some domains) = some (.ok false) ↔
      ¬ ∃ d ∈ domains, ∃ w, parse d = some w ∧ w.hostPart = some host) := by
  obtain ⟨us, hosts, h1, h2, h3⟩ := collect_parse_hosts parse domains hd
  have hrun : is_allowed parse url (some domains) =
      some (.ok (hosts.contains host)) := by
    simp only [is_allowed, hu, hh, h1, h2]
  have hmem : hosts.contains host = true ↔
      ∃ d ∈ domains, ∃ w, parse d = some w ∧ w.hostPart = some host := by
    have : hosts.contains host = true ↔ host ∈ hosts := by
      simp [List.contains, List.elem_iff]
    rw [this]
    exact h3 host
  rw [hrun]
  simp only [Option.some.injEq, Except.ok.injEq]
  refine ⟨hmem, ?_, ?_⟩
  · intro hx hex
    rw [hmem.mpr hex] at hx
    cases hx
  · intro hex
    cases hc : hosts.contains host with
    | false => rfl
    | true => exact absurd (hmem.mp hc) hex

/-- Witness for C3: the spec's examples against the allow-list
`["https://api.example.com", "http://10.0.0.1"]`. -/
theorem c3_witness :
    is_allowed parseUrlModel "https://api.example.com/health"
      (some ["https://api.example.com", "http://10.0.0.1"]) =
      some (.ok true) ∧
    is_allowed parseUrlModel "https://evil.example.com"
      (some ["https://api.example.com", "http://10.0.0.1"]) =
      some (.ok false) ∧
    is_allowed parseUrlModel "http://10.0.0.1/login"
      (some ["https://api.example.com", "http://10.0.0.1"]) =
      some (.ok true) := by
  have hd : ∀ d ∈ ["https://api.example.com", "http://10.0.0.1"],
      ∃ w hw, parseUrlModel d = some w ∧ w.hostPart = some hw := by
    intro d hd
    simp only [List.mem_cons, List.not_mem_nil, or_false] at hd
    rcases hd with rfl | rfl
    · exact ⟨⟨some "api.example.com"⟩, "api.example.com", by decide, rfl⟩
    · exact ⟨⟨some "10.0.0.1"⟩, "10.0.0.1", by decide, rfl⟩
  refine ⟨?_, ?_, ?_⟩
  · exact (c3_host_only_match parseUrlModel "https://api.example.com/health"
      ["https://api.example.com", "http://10.0.0.1"]
      ⟨some "api.example.com"⟩ "api.example.com" (by decide) rfl hd).1.mpr
      ⟨"https://api.example.com", by simp,
        ⟨some "api.example.com"⟩, by decide, rfl⟩
  · refine (c3_host_only_match parseUrlModel "https://evil.example.com"
      ["https://api.example.com", "http://10.0.0.1"]
      ⟨some "evil.example.com"⟩ "evil.example.com" (by decide) rfl hd).2.mpr ?_
    rintro ⟨d, hdm, w, h4, h5⟩
    simp only [List.mem_cons, List.not_mem_nil, or_false] at hdm
    rcases hdm with rfl | rfl
    · rw [show parseUrlModel "https://api.example.com" =
          some ⟨some "api.example.com"⟩ from by decide] at h4
      cases h4
      simp at h5
    · rw [show parseUrlModel "http://10.0.0.1" =
          some ⟨some "10.0.0.1"⟩ from by decide] at h4
      cases h4
      simp at h5
  · exact (c3_host_only_match parseUrlModel "http://10.0.0.1/login"
      ["https://api.example.com", "http://10.0.0.1"]
      ⟨some "10.0.0.1"⟩ "10.0.0.1" (by decide) rfl hd).1.mpr
      ⟨"http://10.0.0.1", by simp, ⟨some "10.0.0.1"⟩, by decide, rfl⟩

/-! ### C9: partiality of `is_allowed` on host-less allow-list entries -/

/-- C9: `is_allowed` is total only when every allow-list entry parses
to a URL with a host.  An entry that fails to parse yields the
`InvalidUrl` error (code 10), but an entry that parses to a URL with no
host component makes the host extraction panic (`none` in the model)
instead of returning an error code. -/
theorem c9_hostless_entry_panics (parse : String → Option Url)
    (url : String) (domains : List String) (u : Url) (host : String)
    (hu : parse url = some u) (hh : u.hostPart = some host) :
    ((∃ d ∈ domains, parse d = none) →
      is_allowed parse url (some domains) = some (.error .invalidUrl) ∧
      errorCode .invalidUrl = 10) ∧
    ((∀ d ∈ domains, (parse d).isSome) →
      (∃ d ∈ domains, ∃ w, parse d = some w ∧ w.hostPart = none) →
      is_allowed parse url (some domains) = none) := by
  constructor
  · intro hbad
    have hcoll : collectOption parse domains = none :=
      (collectOption_none_iff _ _).mpr hbad
    refine ⟨?_, rfl⟩
    simp only [is_allowed, hu, hh, hcoll]
  · rintro hall ⟨d0, hd0, w0, hw0, hw0n⟩
    obtain ⟨us, h1, _, h3⟩ := collectOption_total parse domains hall
    have hw0us : w0 ∈ us := h3 d0 hd0 w0 hw0
    have hcoll : collectOption (fun v => v.hostPart) us = none :=
      (collectOption_none_iff _ _).mpr ⟨w0, hw0us, hw0n⟩
    simp only [is_allowed, hu, hh, h1, hcoll]

/-- Witness for C9: the unparsable entry `"nonsense"` yields the
`InvalidUrl` error, while the parsable but host-less entry
`"mailto:admin@example.com"` makes the call panic. -/
theorem c9_witness :
    (is_allowed parseUrlModel "https://example.com" (some ["nonsense"]) =
       some (.error .invalidUrl) ∧ errorCode .invalidUrl = 10) ∧
    is_allowed parseUrlModel "https://example.com"
      (some ["mailto:admin@example.com"]) = none := by
  constructor
  · exact (c9_hostless_entry_panics parseUrlModel "https://example.com"
      ["nonsense"] ⟨some "example.com"⟩ "example.com" (by decide) rfl).1
      ⟨"nonsense", by simp, by decide⟩
  · exact (c9_hostless_entry_panics parseUrlModel "https://example.com"
      ["mailto:admin@example.com"] ⟨some "example.com"⟩ "example.com"
      (by decide) rfl).2 (by decide)
      ⟨"mailto:admin@example.com", by simp, ⟨none⟩, by decide, rfl⟩

theorem mapGet_cons (pk : Nat) (pv : Response)
    (rest : List (Nat × Response)) (k : Nat) :
    mapGet ((pk, pv) :: rest) k =
      if pk = k then some pv else mapGet rest k := rfl

theorem mapGet_filter_ne (m : List (Nat × Response)) (k k' : Nat)
    (h : k' ≠ k) :
    mapGet (m.filter (fun p => p.1 != k)) k' = mapGet m k' := by
  induction m with
  | nil => rfl
  | cons p rest ih =>
    obtain ⟨pk, pv⟩ := p
    by_cases hpk : pk = k
    · subst hpk
      simp only [List.filter_cons]
      rw [if_neg (by simp), ih, mapGet_cons]
      rw [if_neg (fun hc => h hc.symm)]
    · simp only [List.filter_cons]
      rw [if_pos (by simp [hpk]), mapGet_cons, mapGet_cons]
      by_cases hpk' : pk = k'
      · rw [if_pos hpk', if_pos hpk']
      · rw [if_neg hpk', if_neg hpk', ih]

theorem mapGet_mapInsert_self (m : List (Nat × Response)) (k : Nat)
    (v : Response) : mapGet (mapInsert m k v) k = some v := by
  unfold mapInsert mapGet
  rw [if_pos rfl]

theorem mapGet_mapInsert_ne (m : List (Nat × Response)) (k k' : Nat)
    (v : Response) (h : k' ≠ k) :
    mapGet (mapInsert m k v) k' = mapGet m k' := by
  unfold mapInsert
  rw [mapGet_cons, if_neg (fun hc => h hc.symm)]
  exact mapGet_filter_ne m k k' h

theorem mapGet_mapRemove_self (m : List (Nat × Response)) (k : Nat) :
    mapGet (mapRemove m k) k = none := by
  induction m with
  | nil => rfl
  | cons p rest ih =>
    obtain ⟨pk, pv⟩ := p
    by_cases hpk : pk = k
    · subst hpk
      simp only [mapRemove, List.filter_cons]
      rw [if_neg (by simp)]
      exact ih
    · simp only [mapRemove, List.filter_cons]
      rw [if_pos (by simp [hpk]), mapGet_cons, if_neg hpk]
      exact ih

theorem mapGet_mapRemove_ne (m : List (Nat × Response)) (k k' : Nat)
    (h : k' ≠ k) : mapGet (mapRemove m k) k' = mapGet m k' :=
  mapGet_filter_ne m k k' h

theorem mapRemove_of_absent (m : List (Nat × Response)) (k : Nat)
    (h : mapGet m k = none) : mapRemove m k = m := by
  induction m with
  | nil => rfl
  | cons p rest ih =>
    obtain ⟨pk, pv⟩ := p
    unfold mapGet at h
    by_cases hpk : pk = k
    · rw [if_pos hpk] at h
      cases h
    · rw [if_neg hpk] at h
      have hr := ih h
      unfold mapRemove at hr
      simp only [mapRemove, List.filter_cons]
      rw [if_pos (by simp [hpk]), hr]

/-! ### Memory-write bookkeeping lemmas -/

theorem memWrite_ok (mem : List Nat) (off : Nat) (data : List Nat)
    (h : off + data.length ≤ mem.length) :
    memWrite mem off data = .ok (writtenMem mem off data) := by
  unfold memWrite writtenMem
  rw [if_neg (by omega)]

theorem memWrite_err (mem : List Nat) (off : Nat) (data : List Nat)
    (h : mem.length < off + data.length) :
    memWrite mem off data = .error .memoryAccessError := by
  unfold memWrite
  rw [if_pos h]

/-- Writing preserves the memory size. -/
theorem length_writtenMem (mem : List Nat) (off : Nat) (data : List Nat)
    (h : off + data.length ≤ mem.length) :
    (writtenMem mem off data).length = mem.length := by
  unfold writtenMem
  simp only [List.length_append, List.length_take, List.length_drop]
  omega

/-- Reading back the bytes just written returns them unchanged. -/
theorem readBytes_writtenMem_self (mem : List Nat) (off : Nat)
    (data : List Nat) (h : off + data.length ≤ mem.length) :
    readBytes (writtenMem mem off data) off data.length = data := by
  unfold readBytes writtenMem
  rw [List.append_assoc]
  rw [List.drop_left' (by simp; omega)]
  rw [List.take_left' rfl]

/-- A write leaves every byte strictly below the written region
untouched. -/
theorem readBytes_writtenMem_before (mem : List Nat) (off : Nat)
    (data : List Nat) (i len : Nat) (hd : i + len ≤ off)
    (h : off + data.length ≤ mem.length) :
    readBytes (writtenMem mem off data) i len = readBytes mem i len := by
  unfold readBytes writtenMem
  rw [List.take_drop, List.take_drop]
  congr 1
  rw [List.append_assoc]
  rw [List.take_append_of_le_length (by simp; omega)]
  rw [List.take_take]
  congr 1
  omega

/-- A write leaves every byte at or above the end of the written region
untouched. -/
theorem readBytes_writtenMem_after (mem : List Nat) (off : Nat)
    (data : List Nat) (i len : Nat) (hd : off + data.length ≤ i)
    (h : off + data.length ≤ mem.length) :
    readBytes (writtenMem mem off data) i len = readBytes mem i len := by
  unfold readBytes writtenMem
  congr 1
  have hlen : (mem.take off ++ data).length = off + data.length := by
    simp
    omega
  have hi : i = (mem.take off ++ data).length + (i - off - data.length) := by
    rw [hlen]
    omega
  rw [hi, List.drop_append, List.drop_drop]
  congr 1
  omega


/-! ### Body and chunk lemmas -/

theorem u32le_length (n : Nat) : (u32le n).length = 4 := rfl

theorem u16le_length (n : Nat) : (u16le n).length = 2 := rfl

theorem chunkLen_le_cap (resp : Response) (cap : Nat) :
    chunkLen resp cap ≤ cap := by
  unfold chunkLen
  omega

theorem bodyChunk_length (resp : Response) (cap : Nat)
    (hpos : resp.body.pos ≤ resp.body.bytes.length) :
    (bodyChunk resp cap).length = chunkLen resp cap := by
  unfold bodyChunk chunkLen
  simp only [List.length_take, List.length_drop]
  omega

theorem bodyChunk_append (resp : Response) (N M : Nat) :
    bodyChunk resp N ++ bodyChunk (advanceBody resp N) M =
      bodyChunk resp (N + M) := by
  unfold bodyChunk advanceBody chunkLen
  simp only []
  have h : min (N + M) (resp.body.bytes.length - resp.body.pos) =
      min N (resp.body.bytes.length - resp.body.pos) +
      min M (resp.body.bytes.length -
        (resp.body.pos + min N (resp.body.bytes.length - resp.body.pos))) := by
    omega
  rw [h, List.take_add, List.drop_drop]

theorem advanceBody_advanceBody (resp : Response) (N M : Nat) :
    advanceBody (advanceBody resp N) M = advanceBody resp (N + M) := by
  unfold advanceBody chunkLen
  simp only []
  congr 2
  omega

/-- Characterisation of a body-read whose two memory writes fit: the
handle's entry advances by `chunkLen`, the chunk lands at `bp`, the
copied count at `rp`, and the result is success. -/
theorem body_read_ok (st : State) (mem : List Nat)
    (handle bp cap rp : Nat) (resp : Response)
    (hl : mapGet st.responses handle = some resp)
    (hpos : resp.body.pos ≤ resp.body.bytes.length)
    (hb1 : bp + cap ≤ mem.length)
    (hb2 : rp + 4 ≤ mem.length) :
    HostCalls.body_read st mem handle bp cap rp =
      (⟨mapInsert st.responses handle (advanceBody resp cap),
        st.current_handle⟩,
       writtenMem (writtenMem mem bp (bodyChunk resp cap)) rp
         (u32le (chunkLen resp cap)),
       .ok ()) := by
  have hclen : (bodyChunk resp cap).length = chunkLen resp cap :=
    bodyChunk_length resp cap hpos
  have hw1 : bp + (bodyChunk resp cap).length ≤ mem.length := by
    rw [hclen]
    have := chunkLen_le_cap resp cap
    omega
  have hm1 : (writtenMem mem bp (bodyChunk resp cap)).length =
      mem.length := length_writtenMem mem bp _ hw1
  have hw2 : rp + (u32le (chunkLen resp cap)).length ≤
      (writtenMem mem bp (bodyChunk resp cap)).length := by
    rw [u32le_length, hm1]
    omega
  simp only [HostCalls.body_read, hl]
  rw [show (resp.body.bytes.drop resp.body.pos).take
        (min cap (resp.body.bytes.length - resp.body.pos)) =
      bodyChunk resp cap from rfl]
  rw [memWrite_ok mem bp (bodyChunk resp cap) hw1]
  dsimp only
  rw [show min cap (resp.body.bytes.length - resp.body.pos) =
      chunkLen resp cap from rfl]
  rw [memWrite_ok _ rp (u32le (chunkLen resp cap)) hw2]
  exact rfl

/-! ### C6: body reads are sequential and cursor-driven -/

/-- C6: for a live handle, a body-read with capacity `N` succeeds
(outcome 0) even when fewer bytes than requested remain (including zero
at end-of-body); it copies exactly `min(N, unread)` bytes starting at
the cursor into guest memory at `bp`, advances the cursor by exactly
that amount, and writes the copied count at `rp`; and reading `N` then
`M` bytes delivers the same concatenated bytes and the same final
cursor as reading `N + M` bytes in one call, never re-delivering
consumed bytes. -/
theorem c6_body_read_sequential (st : State) (mem : List Nat)
    (handle bp N M rp : Nat) (resp : Response)
    (hl : mapGet st.responses handle = some resp)
    (hpos : resp.body.pos ≤ resp.body.bytes.length)
    (hb1 : bp + N ≤ mem.length) (hb2 : rp + 4 ≤ mem.length)
    (hdisj : bp + N ≤ rp ∨ rp + 4 ≤ bp) :
    (HostCalls.body_read st mem handle bp N rp =
      (⟨mapInsert st.responses handle (advanceBody resp N),
        st.current_handle⟩,
       writtenMem (writtenMem mem bp (bodyChunk resp N)) rp
         (u32le (chunkLen resp N)), .ok ()) ∧
     outcome (.ok ()) = 0) ∧
    chunkLen resp N = min N (resp.body.bytes.length - resp.body.pos) ∧
    (advanceBody resp N).body.pos = resp.body.pos + chunkLen resp N ∧
    readBytes (writtenMem (writtenMem mem bp (bodyChunk resp N)) rp
      (u32le (chunkLen resp N))) bp (chunkLen resp N) = bodyChunk resp N ∧
    readBytes (writtenMem (writtenMem mem bp (bodyChunk resp N)) rp
      (u32le (chunkLen resp N))) rp 4 = u32le (chunkLen resp N) ∧
    mapGet (mapInsert st.responses handle (advanceBody resp N)) handle =
      some (advanceBody resp N) ∧
    bodyChunk resp N ++ bodyChunk (advanceBody resp N) M =
      bodyChunk resp (N + M) ∧
    advanceBody (advanceBody resp N) M = advanceBody resp (N + M) := by
  have hclen : (bodyChunk resp N).length = chunkLen resp N :=
    bodyChunk_length resp N hpos
  have hlecap := chunkLen_le_cap resp N
  have hw1 : bp + (bodyChunk resp N).length ≤ mem.length := by
    rw [hclen]; omega
  have hm1 : (writtenMem mem bp (bodyChunk resp N)).length = mem.length :=
    length_writtenMem mem bp _ hw1
  have hw2 : rp + (u32le (chunkLen resp N)).length ≤
      (writtenMem mem bp (bodyChunk resp N)).length := by
    rw [u32le_length, hm1]; omega
  refine ⟨⟨body_read_ok st mem handle bp N rp resp hl hpos hb1 hb2, rfl⟩,
    rfl, rfl, ?_, ?_, mapGet_mapInsert_self _ _ _,
    bodyChunk_append resp N M, advanceBody_advanceBody resp N M⟩
  · rcases hdisj with hle | hge
    · rw [readBytes_writtenMem_before _ rp _ bp (chunkLen resp N)
        (by omega) (by rw [u32le_length, hm1]; omega)]
      rw [← hclen]
      exact readBytes_writtenMem_self mem bp _ hw1
    · have h4 : rp + (u32le (chunkLen resp N)).length ≤ bp := by
        rw [u32le_length]; omega
      rw [readBytes_writtenMem_after _ rp _ bp (chunkLen resp N) h4
        (by rw [u32le_length, hm1]; omega)]
      rw [← hclen]
      exact readBytes_writtenMem_self mem bp _ hw1
  · rw [show (4 : Nat) = (u32le (chunkLen resp N)).length from rfl]
    exact readBytes_writtenMem_self _ rp _ hw2

/-- Witness for C6: a two-byte body read in two 1-byte steps on a
concrete state. -/
theorem c6_witness :
    (HostCalls.body_read
        ⟨[(0, ⟨[], ⟨[10, 20], 0⟩⟩)], 0⟩ [0, 0, 0, 0, 0, 0] 0 0 1 2 =
      (⟨mapInsert [(0, ⟨[], ⟨[10, 20], 0⟩⟩)] 0
          (advanceBody ⟨[], ⟨[10, 20], 0⟩⟩ 1), 0⟩,
       writtenMem (writtenMem [0, 0, 0, 0, 0, 0] 0
           (bodyChunk ⟨[], ⟨[10, 20], 0⟩⟩ 1)) 2
         (u32le (chunkLen ⟨[], ⟨[10, 20], 0⟩⟩ 1)), .ok ()) ∧
     outcome (.ok ()) = 0) ∧
    chunkLen ⟨[], ⟨[10, 20], 0⟩⟩ 1 = min 1 2 ∧
    (advanceBody ⟨[], ⟨[10, 20], 0⟩⟩ 1).body.pos =
      0 + chunkLen ⟨[], ⟨[10, 20], 0⟩⟩ 1 ∧
    readBytes (writtenMem (writtenMem [0, 0, 0, 0, 0, 0] 0
        (bodyChunk ⟨[], ⟨[10, 20], 0⟩⟩ 1)) 2
      (u32le (chunkLen ⟨[], ⟨[10, 20], 0⟩⟩ 1))) 0
      (chunkLen ⟨[], ⟨[10, 20], 0⟩⟩ 1) = bodyChunk ⟨[], ⟨[10, 20], 0⟩⟩ 1 ∧
    readBytes (writtenMem (writtenMem [0, 0, 0, 0, 0, 0] 0
        (bodyChunk ⟨[], ⟨[10, 20], 0⟩⟩ 1)) 2
      (u32le (chunkLen ⟨[], ⟨[10, 20], 0⟩⟩ 1))) 2 4 =
      u32le (chunkLen ⟨[], ⟨[10, 20], 0⟩⟩ 1) ∧
    mapGet (mapInsert [(0, ⟨[], ⟨[10, 20], 0⟩⟩)] 0
        (advanceBody ⟨[], ⟨[10, 20], 0⟩⟩ 1)) 0 =
      some (advanceBody ⟨[], ⟨[10, 20], 0⟩⟩ 1) ∧
    bodyChunk ⟨[], ⟨[10, 20], 0⟩⟩ 1 ++
      bodyChunk (advanceBody ⟨[], ⟨[10, 20], 0⟩⟩ 1) 1 =
      bodyChunk ⟨[], ⟨[10, 20], 0⟩⟩ (1 + 1) ∧
    advanceBody (advanceBody ⟨[], ⟨[10, 20], 0⟩⟩ 1) 1 =
      advanceBody ⟨[], ⟨[10, 20], 0⟩⟩ (1 + 1) :=
  c6_body_read_sequential ⟨[(0, ⟨[], ⟨[10, 20], 0⟩⟩)], 0⟩
    [0, 0, 0, 0, 0, 0] 0 0 1 1 2 ⟨[], ⟨[10, 20], 0⟩⟩ (by decide)
    (by decide) (by decide) (by decide) (Or.inl (by decide))

/-! ### C7: header lookup -/

/-- C7: for a live handle, `header_get` looks the guest-supplied name
up by its ASCII-lowercased form, so two names with the same lowercase
form behave identically ("Content-Type" finds what "content-type"
finds); an absent name fails with `HeaderNotFound` (code 5); a value
longer than the destination capacity — including one byte longer —
fails with `BufferTooSmall` (code 4) leaving guest memory untouched;
and a fitting value is copied with its length recorded. -/
theorem c7_header_get_lookup (decode : List Nat → Option String)
    (st : State) (mem : List Nat) (handle np nl vp vl wp : Nat)
    (resp : Response) (name : String)
    (hl : mapGet st.responses handle = some resp)
    (hname : string_from_memory decode mem np nl = .ok name) :
    (∀ name' np' nl',
      string_from_memory decode mem np' nl' = .ok name' →
      asciiLowercase name' = asciiLowercase name →
      HostCalls.header_get decode st mem handle np' nl' vp vl wp =
        HostCalls.header_get decode st mem handle np nl vp vl wp) ∧
    (headersGet resp.headers (asciiLowercase name) = none →
      HostCalls.header_get decode st mem handle np nl vp vl wp =
        (mem, .error .headerNotFound) ∧ errorCode .headerNotFound = 5) ∧
    (∀ v, headersGet resp.headers (asciiLowercase name) = some v →
      vl < v.length →
      HostCalls.header_get decode st mem handle np nl vp vl wp =
        (mem, .error .bufferTooSmall) ∧ errorCode .bufferTooSmall = 4) ∧
    (∀ v, headersGet resp.headers (asciiLowercase name) = some v →
      v.length ≤ vl → vp + v.length ≤ mem.length →
      wp + 4 ≤ mem.length →
      HostCalls.header_get decode st mem handle np nl vp vl wp =
        (writtenMem (writtenMem mem vp v) wp (u32le v.length),
         .ok ())) := by
  refine ⟨?_, ?_, ?_, ?_⟩
  · intro name' np' nl' hname' hlow
    simp only [HostCalls.header_get, hl, hname, hname', hlow]
  · intro habs
    simp only [HostCalls.header_get, hl, hname, habs]
    exact ⟨trivial, rfl⟩
  · intro v hv hlen
    simp only [HostCalls.header_get, hl, hname, hv]
    rw [if_pos hlen]
    exact ⟨rfl, rfl⟩
  · intro v hv hlen hvp hwp
    simp only [HostCalls.header_get, hl, hname, hv]
    rw [if_neg (by omega)]
    rw [memWrite_ok mem vp v (by omega)]
    dsimp only
    rw [memWrite_ok _ wp (u32le v.length)
      (by rw [u32le_length, length_writtenMem mem vp v (by omega)]; omega)]

/-- Witness for C7: a header stored as `content-type` (the lower-cased
storage of `Content-Type`) is found via the query name `Content-Type`;
a one-byte-short buffer yields `BufferTooSmall` with memory untouched;
an absent name yields `HeaderNotFound`. -/
theorem c7_witness :
    (HostCalls.header_get
        (fun bs => if bs = [65] then some "Content-Type"
          else some "x-missing")
        ⟨[(9, ⟨[("content-type", [97, 98])], ⟨[], 0⟩⟩)], 0⟩
        [65, 0, 0, 0, 0, 0] 9 0 1 2 1 3 =
      ([65, 0, 0, 0, 0, 0], .error .bufferTooSmall) ∧
     errorCode .bufferTooSmall = 4) ∧
    (HostCalls.header_get
        (fun bs => if bs = [65] then some "Content-Type"
          else some "x-missing")
        ⟨[(9, ⟨[("content-type", [97, 98])], ⟨[], 0⟩⟩)], 0⟩
        [65, 0, 0, 0, 0, 0] 9 4 1 2 1 3 =
      ([65, 0, 0, 0, 0, 0], .error .headerNotFound) ∧
     errorCode .headerNotFound = 5) := by
  constructor
  · exact (c7_header_get_lookup
      (fun bs => if bs = [65] then some "Content-Type" else some "x-missing")
      ⟨[(9, ⟨[("content-type", [97, 98])], ⟨[], 0⟩⟩)], 0⟩
      [65, 0, 0, 0, 0, 0] 9 0 1 2 1 3
      ⟨[("content-type", [97, 98])], ⟨[], 0⟩⟩ "Content-Type"
      (by decide) (by decide)).2.2.1 [97, 98] (by decide) (by decide)
  · exact (c7_header_get_lookup
      (fun bs => if bs = [65] then some "Content-Type" else some "x-missing")
      ⟨[(9, ⟨[("content-type", [97, 98])], ⟨[], 0⟩⟩)], 0⟩
      [65, 0, 0, 0, 0, 0] 9 4 1 2 1 3
      ⟨[("content-type", [97, 98])], ⟨[], 0⟩⟩ "x-missing"
      (by decide) (by decide)).2.1 (by decide)

/-! ### Probe-loop characterisation -/

theorem probeLoop_zero (resp : List (Nat × Response)) (initial current : Nat) :
    probeLoop resp initial current 0 = .error .tooManySessions := rfl

theorem probeLoop_succ (resp : List (Nat × Response))
    (initial current fuel : Nat) :
    probeLoop resp initial current (fuel + 1) =
      if (mapGet resp current).isSome then
        (if (current + 1) % u32Size = initial then
          .error .tooManySessions
         else probeLoop resp initial ((current + 1) % u32Size) fuel)
      else .ok current := rfl

theorem probeLoop_error_eq (resp : List (Nat × Response)) (initial : Nat) :
    ∀ fuel current e, probeLoop resp initial current fuel = .error e →
      e = .tooManySessions := by
  intro fuel
  induction fuel with
  | zero =>
    intro current e h
    exact (Except.error.inj h).symm
  | succ f ih =>
    intro current e h
    rw [probeLoop_succ] at h
    by_cases hocc : (mapGet resp current).isSome = true
    · rw [if_pos hocc] at h
      by_cases heq : (current + 1) % u32Size = initial
      · rw [if_pos heq] at h
        exact (Except.error.inj h).symm
      · rw [if_neg heq] at h
        exact ih _ e h
    · rw [if_neg hocc] at h
      cases h

/-- Core invariant of the probe loop, by downward induction: starting
at offset `n` from `initial` with fuel `u32Size - n`, the loop errors
exactly when every slot from offset `n` on is occupied, and a returned
slot is the first unoccupied one in probing order. -/
theorem probeLoop_spec (resp : List (Nat × Response)) (initial : Nat)
    (hinit : initial < u32Size) :
    ∀ f n, n + f = u32Size →
      ((probeLoop resp initial ((initial + n) % u32Size) f =
          .error .tooManySessions ↔
        ∀ k, n ≤ k → k < u32Size →
          (mapGet resp ((initial + k) % u32Size)).isSome = true) ∧
       (∀ h, probeLoop resp initial ((initial + n) % u32Size) f = .ok h →
         (mapGet resp h).isSome = false ∧
         ∃ k, n ≤ k ∧ k < u32Size ∧ h = (initial + k) % u32Size ∧
           ∀ j, n ≤ j → j < k →
             (mapGet resp ((initial + j) % u32Size)).isSome = true)) := by
  intro f
  induction f with
  | zero =>
    intro n hn
    constructor
    · constructor
      · intro _ k hk1 hk2
        exact absurd hk2 (by omega)
      · intro _
        rfl
    · intro h hok
      exact Except.noConfusion hok
  | succ f ih =>
    intro n hn
    have hnlt : n < u32Size := by omega
    have hu32pos : 0 < u32Size := by norm_num [u32Size]
    have hnext : ((initial + n) % u32Size + 1) % u32Size =
        (initial + (n + 1)) % u32Size := by
      have h1m : 1 % u32Size = 1 := Nat.mod_eq_of_lt (by norm_num [u32Size])
      conv_rhs => rw [show initial + (n + 1) = initial + n + 1 from rfl,
        Nat.add_mod (initial + n) 1 u32Size, h1m]
    by_cases hocc : (mapGet resp ((initial + n) % u32Size)).isSome = true
    · by_cases heq : (initial + (n + 1)) % u32Size = initial
      · have hn1 : n + 1 = u32Size := by
          rcases Nat.lt_or_ge (initial + (n + 1)) u32Size with hlt | hge
          · rw [Nat.mod_eq_of_lt hlt] at heq
            omega
          · have h2 : initial + (n + 1) - u32Size < u32Size := by omega
            rw [Nat.mod_eq_sub_mod hge, Nat.mod_eq_of_lt h2] at heq
            omega
        have hstep : probeLoop resp initial ((initial + n) % u32Size)
            (f + 1) = .error .tooManySessions := by
          rw [probeLoop_succ, if_pos hocc, hnext, if_pos heq]
        constructor
        · rw [hstep]
          refine iff_of_true rfl ?_
          intro k hk1 hk2
          have : k = n := by omega
          rw [this]
          exact hocc
        · intro h hok
          rw [hstep] at hok
          exact Except.noConfusion hok
      · have hstep : probeLoop resp initial ((initial + n) % u32Size)
            (f + 1) =
            probeLoop resp initial ((initial + (n + 1)) % u32Size) f := by
          rw [probeLoop_succ, if_pos hocc, hnext, if_neg heq]
        obtain ⟨ihE, ihO⟩ := ih (n + 1) (by omega)
        constructor
        · rw [hstep, ihE]
          constructor
          · intro hall k hk1 hk2
            rcases Nat.eq_or_lt_of_le hk1 with hkn | hkn
            · rw [← hkn]
              exact hocc
            · exact hall k hkn hk2
          · intro hall k hk1 hk2
            exact hall k (by omega) hk2
        · intro h hok
          rw [hstep] at hok
          obtain ⟨hfree, k, hk1, hk2, hk3, hkprev⟩ := ihO h hok
          refine ⟨hfree, k, by omega, hk2, hk3, ?_⟩
          intro j hj1 hj2
          rcases Nat.eq_or_lt_of_le hj1 with hjn | hjn
          · rw [← hjn]
            exact hocc
          · exact hkprev j hjn hj2
    · have hfree : (mapGet resp ((initial + n) % u32Size)).isSome = false := by
        cases hval : (mapGet resp ((initial + n) % u32Size)).isSome with
        | false => rfl
        | true => exact absurd hval hocc
      have hstep : probeLoop resp initial ((initial + n) % u32Size)
          (f + 1) = .ok ((initial + n) % u32Size) := by
        rw [probeLoop_succ, if_neg hocc]
      constructor
      · rw [hstep]
        refine iff_of_false (fun hc => Except.noConfusion hc) ?_
        intro hall
        rw [hall n le_rfl hnlt] at hfree
        cases hfree
      · intro h hok
        rw [hstep] at hok
        have hh : h = (initial + n) % u32Size := (Except.ok.inj hok).symm
        refine ⟨by rw [hh]; exact hfree, n, le_rfl, hnlt, hh, ?_⟩
        intro j hj1 hj2
        exact absurd (lt_of_le_of_lt hj1 hj2) (lt_irrefl n)

/-- Top-level run of the probe loop from the cursor, with the wrap-around
translated into plain slot quantification. -/
theorem probeLoop_run (resp : List (Nat × Response)) (initial : Nat)
    (hinit : initial < u32Size) :
    (probeLoop resp initial initial u32Size = .error .tooManySessions ↔
      ∀ h, h < u32Size → (mapGet resp h).isSome = true) ∧
    (∀ h, probeLoop resp initial initial u32Size = .ok h →
      (mapGet resp h).isSome = false ∧
      ∃ k, k < u32Size ∧ h = (initial + k) % u32Size ∧
        ∀ j, j < k →
          (mapGet resp ((initial + j) % u32Size)).isSome = true) := by
  have hstart : (initial + 0) % u32Size = initial := by
    rw [Nat.add_zero, Nat.mod_eq_of_lt hinit]
  obtain ⟨hE, hO⟩ := probeLoop_spec resp initial hinit u32Size 0 (by omega)
  rw [hstart] at hE hO
  constructor
  · rw [hE]
    constructor
    · intro hall h hh
      by_cases hcase : initial ≤ h
      · have hx := hall (h - initial) (by omega) (by omega)
        have hk : initial + (h - initial) = h := by omega
        rw [hk, Nat.mod_eq_of_lt hh] at hx
        exact hx
      · have hx := hall (h + u32Size - initial) (by omega) (by omega)
        have hk : initial + (h + u32Size - initial) = h + u32Size := by
          omega
        rw [hk, Nat.add_mod_right, Nat.mod_eq_of_lt hh] at hx
        exact hx
    · intro hall k _ _
      exact hall _ (Nat.mod_lt _ (by norm_num [u32Size]))
  · intro h hok
    obtain ⟨hfree, k, _, hklt, hkh, hkprev⟩ := hO h hok
    exact ⟨hfree, k, hklt, hkh, fun j hj => hkprev j (Nat.zero_le j) hj⟩

/-! ### C5: handle allocation -/

/-- C5: allocation starts at the cursor and probes upward (wrapping at
the top of the `u32` space) to the first unoccupied slot: on success
the returned slot was free (never overwriting a live entry), the cursor
is left on it, the response is stored there and every other entry is
untouched; the probe visited only occupied slots before it.  It fails —
necessarily with `TooManySessions` (code 13) — exactly when every one
of the `2^32` slots is occupied. -/
theorem c5_alloc_first_free (st : State) (r : Response)
    (hcur : st.current_handle < u32Size) :
    (∀ st' h, allocHandle st r = .ok (st', h) →
      mapGet st.responses h = none ∧
      st'.current_handle = h ∧
      st'.responses = mapInsert st.responses h r ∧
      mapGet st'.responses h = some r ∧
      (∀ h', h' ≠ h → mapGet st'.responses h' = mapGet st.responses h') ∧
      ∃ k, k < u32Size ∧ h = (st.current_handle + k) % u32Size ∧
        ∀ j, j < k →
          (mapGet st.responses
            ((st.current_handle + j) % u32Size)).isSome = true) ∧
    (allocHandle st r = .error .tooManySessions ↔
      ∀ h, h < u32Size → (mapGet st.responses h).isSome = true) ∧
    (∀ e, allocHandle st r = .error e →
      e = .tooManySessions ∧ errorCode e = 13) := by
  obtain ⟨hE, hO⟩ := probeLoop_run st.responses st.current_handle hcur
  refine ⟨?_, ?_, ?_⟩
  · intro st' h hok
    unfold allocHandle at hok
    cases hpl : probeLoop st.responses st.current_handle
        st.current_handle u32Size with
    | error e =>
      rw [hpl] at hok
      cases hok
    | ok h0 =>
      rw [hpl] at hok
      obtain ⟨hst', hh⟩ := Prod.mk.injEq .. ▸ Except.ok.inj hok
      obtain ⟨hfree, k, hklt, hkh, hkprev⟩ := hO h0 hpl
      subst hh
      have hfree' : mapGet st.responses h0 = none := by
        cases hval : mapGet st.responses h0 with
        | none => rfl
        | some v =>
          rw [hval] at hfree
          cases hfree
      have hresp : st'.responses = mapInsert st.responses h0 r := by
        rw [← hst']
      refine ⟨hfree', by rw [← hst'], hresp, ?_, ?_, k, hklt, hkh, hkprev⟩
      · rw [hresp]
        exact mapGet_mapInsert_self _ _ _
      · intro h' hne
        rw [hresp]
        exact mapGet_mapInsert_ne _ _ _ _ hne
  · unfold allocHandle
    cases hpl : probeLoop st.responses st.current_handle
        st.current_handle u32Size with
    | error e =>
      have he : e = .tooManySessions :=
        probeLoop_error_eq st.responses st.current_handle u32Size
          st.current_handle e hpl
      subst he
      rw [← hE]
      exact ⟨fun _ => hpl, fun _ => rfl⟩
    | ok h0 =>
      refine iff_of_false (fun hc => Except.noConfusion hc) ?_
      intro hall
      have := (hE.mpr hall)
      rw [hpl] at this
      cases this
  · intro e halloc
    unfold allocHandle at halloc
    cases hpl : probeLoop st.responses st.current_handle
        st.current_handle u32Size with
    | error e0 =>
      rw [hpl] at halloc
      have he0 : e0 = .tooManySessions :=
        probeLoop_error_eq st.responses st.current_handle u32Size
          st.current_handle e0 hpl
      have : e0 = e := Except.error.inj halloc
      subst this
      exact ⟨he0, by subst he0; rfl⟩
    | ok h0 =>
      rw [hpl] at halloc
      cases halloc

/-- Witness for C5: with slot 0 occupied and the cursor at 0, allocation
probes to slot 1. -/
theorem c5_witness :
    (⟨[(0, ⟨[], ⟨[], 0⟩⟩)], 0⟩ : State).current_handle < u32Size ∧
    ((∀ st' h,
      allocHandle ⟨[(0, ⟨[], ⟨[], 0⟩⟩)], 0⟩ ⟨[], ⟨[42], 0⟩⟩ =
        .ok (st', h) →
      mapGet (⟨[(0, ⟨[], ⟨[], 0⟩⟩)], 0⟩ : State).responses h = none ∧
      st'.current_handle = h ∧
      st'.responses =
        mapInsert (⟨[(0, ⟨[], ⟨[], 0⟩⟩)], 0⟩ : State).responses h
          ⟨[], ⟨[42], 0⟩⟩ ∧
      mapGet st'.responses h = some ⟨[], ⟨[42], 0⟩⟩ ∧
      (∀ h', h' ≠ h → mapGet st'.responses h' =
        mapGet (⟨[(0, ⟨[], ⟨[], 0⟩⟩)], 0⟩ : State).responses h') ∧
      ∃ k, k < u32Size ∧
        h = ((⟨[(0, ⟨[], ⟨[], 0⟩⟩)], 0⟩ : State).current_handle + k) %
          u32Size ∧
        ∀ j, j < k →
          (mapGet (⟨[(0, ⟨[], ⟨[], 0⟩⟩)], 0⟩ : State).responses
            (((⟨[(0, ⟨[], ⟨[], 0⟩⟩)], 0⟩ : State).current_handle + j) %
              u32Size)).isSome = true) ∧
    (allocHandle ⟨[(0, ⟨[], ⟨[], 0⟩⟩)], 0⟩ ⟨[], ⟨[42], 0⟩⟩ =
        .error .tooManySessions ↔
      ∀ h, h < u32Size →
        (mapGet (⟨[(0, ⟨[], ⟨[], 0⟩⟩)], 0⟩ : State).responses h).isSome =
          true) ∧
    (∀ e, allocHandle ⟨[(0, ⟨[], ⟨[], 0⟩⟩)], 0⟩ ⟨[], ⟨[42], 0⟩⟩ =
        .error e → e = .tooManySessions ∧ errorCode e = 13)) :=
  ⟨by decide,
   c5_alloc_first_free ⟨[(0, ⟨[], ⟨[], 0⟩⟩)], 0⟩ ⟨[], ⟨[42], 0⟩⟩
     (by decide)⟩

/-! ### Error-shape lemmas for the write and read primitives -/

theorem errorCode_pos (e : HttpError) : 1 ≤ errorCode e := by
  cases e <;> simp [errorCode]

theorem memWrite_error_eq (mem : List Nat) (off : Nat) (data : List Nat)
    (e : HttpError) (h : memWrite mem off data = .error e) :
    e = .memoryAccessError := by
  unfold memWrite at h
  by_cases hc : mem.length < off + data.length
  · rw [if_pos hc] at h
    exact (Except.error.inj h).symm
  · rw [if_neg hc] at h
    cases h

theorem slice_from_memory_error_eq (mem : List Nat) (off len : Nat)
    (e : HttpError) (h : slice_from_memory mem off len = .error e) :
    e = .bufferTooSmall := by
  unfold slice_from_memory at h
  by_cases h1 : u32Size ≤ off + len
  · rw [if_pos h1] at h
    exact (Except.error.inj h).symm
  · rw [if_neg h1] at h
    by_cases h2 : mem.length < off + len
    · rw [if_pos h2] at h
      exact (Except.error.inj h).symm
    · rw [if_neg h2] at h
      cases h

theorem string_from_memory_error_eq (decode : List Nat → Option String)
    (mem : List Nat) (off len : Nat) (e : HttpError)
    (h : string_from_memory decode mem off len = .error e) :
    e = .bufferTooSmall ∨ e = .utf8Error := by
  cases hs : slice_from_memory mem off len with
  | error e0 =>
    simp only [string_from_memory, hs] at h
    have he0 := slice_from_memory_error_eq mem off len e0 hs
    exact Or.inl (by rw [← he0]; exact (Except.error.inj h).symm)
  | ok bytes =>
    simp only [string_from_memory, hs] at h
    cases hd : decode bytes with
    | none =>
      simp only [hd] at h
      exact Or.inr (Except.error.inj h).symm
    | some s =>
      simp only [hd] at h
      cases h

/-- A live handle never produces `InvalidHandle` from a body read. -/
theorem body_read_no_invalid (st : State) (mem : List Nat)
    (handle bp bl rp : Nat) (resp : Response)
    (hl : mapGet st.responses handle = some resp) :
    (HostCalls.body_read st mem handle bp bl rp).2.2 ≠
      .error (.invalidHandle handle) := by
  simp only [HostCalls.body_read, hl]
  split
  next e heq =>
    intro hc
    rw [memWrite_error_eq _ _ _ _ heq] at hc
    exact HttpError.noConfusion (Except.error.inj hc)
  next mem1 heq =>
    split
    next e heq2 =>
      intro hc
      rw [memWrite_error_eq _ _ _ _ heq2] at hc
      exact HttpError.noConfusion (Except.error.inj hc)
    next mem2 heq2 =>
      intro hc
      exact Except.noConfusion hc

/-- A live handle never produces `InvalidHandle` from a header read. -/
theorem header_get_no_invalid (decode : List Nat → Option String)
    (st : State) (mem : List Nat) (handle np nl vp vl wp : Nat)
    (resp : Response) (hl : mapGet st.responses handle = some resp) :
    (HostCalls.header_get decode st mem handle np nl vp vl wp).2 ≠
      .error (.invalidHandle handle) := by
  simp only [HostCalls.header_get, hl]
  split
  next e heq =>
    intro hc
    rcases string_from_memory_error_eq _ _ _ _ _ heq with he | he <;>
      (rw [he] at hc; exact HttpError.noConfusion (Except.error.inj hc))
  next name heq =>
    split
    next =>
      intro hc
      exact HttpError.noConfusion (Except.error.inj hc)
    next v hv =>
      split
      next =>
        intro hc
        exact HttpError.noConfusion (Except.error.inj hc)
      next =>
        split
        next e heq2 =>
          intro hc
          rw [memWrite_error_eq _ _ _ _ heq2] at hc
          exact HttpError.noConfusion (Except.error.inj hc)
        next mem1 heq2 =>
          split
          next e heq3 =>
            intro hc
            rw [memWrite_error_eq _ _ _ _ heq3] at hc
            exact HttpError.noConfusion (Except.error.inj hc)
          next mem2 heq3 =>
            intro hc
            exact Except.noConfusion hc

/-! ### C4: denial happens strictly before any network I/O -/

/-- C4: when the guest inputs read back successfully but access control
denies the destination, `req` fails with `DestinationNotAllowed`
carrying the URL (code 7), the network dispatcher is never consulted
(`netCalled = false`), no handle is allocated, and the state — the
handle table included — and guest memory are both unchanged. -/
theorem c4_denied_no_network (parse : String → Option Url)
    (decode : List Nat → Option String)
    (methodParse : String → Option String)
    (headersParse : String → Option HeaderMap)
    (net : String → String → HeaderMap → List Nat →
      Except HttpError NetResponse)
    (allowed_hosts : Option (List String)) (st : State) (mem : List Nat)
    (pu lu pm lm ph lh pb lb sp rp : Nat)
    (url methodStr method headersStr : String)
    (req_body : List Nat) (headers : HeaderMap)
    (hurl : string_from_memory decode mem pu lu = .ok url)
    (hmeth : string_from_memory decode mem pm lm = .ok methodStr)
    (hmp : methodParse methodStr = some method)
    (hbody : slice_from_memory mem pb lb = .ok req_body)
    (hhdr : string_from_memory decode mem ph lh = .ok headersStr)
    (hhp : headersParse headersStr = some headers)
    (hdeny : is_allowed parse url allowed_hosts = some (.ok false)) :
    req parse decode methodParse headersParse net allowed_hosts st mem
      pu lu pm lm ph lh pb lb sp rp =
      some ⟨st, mem, false, .error (.destinationNotAllowed url)⟩ ∧
    errorCode (.destinationNotAllowed url) = 7 := by
  constructor
  · simp only [req, hurl, hmeth, hmp, hbody, hhdr, hhp, hdeny]
  · rfl

/-- Witness for C4: a denied destination (empty allow-list) leaves the
state and memory of a concrete call untouched, with no network call. -/
theorem c4_witness :
    req (fun _ => some ⟨some "h"⟩) (fun _ => some "u")
      (fun _ => some "GET") (fun _ => some [])
      (fun _ _ _ _ => .error .requestError) (some [])
      ⟨[], 5⟩ [] 0 0 0 0 0 0 0 0 0 0 =
      some ⟨⟨[], 5⟩, [], false, .error (.destinationNotAllowed "u")⟩ ∧
    errorCode (.destinationNotAllowed "u") = 7 :=
  c4_denied_no_network (fun _ => some ⟨some "h"⟩) (fun _ => some "u")
    (fun _ => some "GET") (fun _ => some [])
    (fun _ _ _ _ => .error .requestError) (some []) ⟨[], 5⟩ []
    0 0 0 0 0 0 0 0 0 0 "u" "u" "GET" "u" [] []
    (by decide) (by decide) rfl (by decide) (by decide) rfl (by decide)

/-! ### C10: the status write precedes handle allocation -/

/-- C10: `req` writes the response status code into guest memory before
allocating a handle; consequently an execution that fails after a
successful network call — by handle-space exhaustion or by a failed
write of the handle value — still returns a nonzero outcome with the
status code already written at the guest-supplied offset: guest memory
is not left unchanged on that error path. -/
theorem c10_status_before_alloc (parse : String → Option Url)
    (decode : List Nat → Option String)
    (methodParse : String → Option String)
    (headersParse : String → Option HeaderMap)
    (net : String → String → HeaderMap → List Nat →
      Except HttpError NetResponse)
    (allowed_hosts : Option (List String)) (st : State) (mem : List Nat)
    (pu lu pm lm ph lh pb lb sp rp : Nat)
    (url methodStr method headersStr : String)
    (req_body : List Nat) (headers : HeaderMap) (r : NetResponse)
    (hurl : string_from_memory decode mem pu lu = .ok url)
    (hmeth : string_from_memory decode mem pm lm = .ok methodStr)
    (hmp : methodParse methodStr = some method)
    (hbody : slice_from_memory mem pb lb = .ok req_body)
    (hhdr : string_from_memory decode mem ph lh = .ok headersStr)
    (hhp : headersParse headersStr = some headers)
    (hallow : is_allowed parse url allowed_hosts = some (.ok true))
    (hnet : net url method headers req_body = .ok r)
    (hsp : sp + 2 ≤ mem.length)
    (hfail : allocHandle st ⟨r.headers, ⟨r.body, 0⟩⟩ =
        .error .tooManySessions ∨
      (∃ st1 handle, allocHandle st ⟨r.headers, ⟨r.body, 0⟩⟩ =
        .ok (st1, handle) ∧ mem.length < rp + 4)) :
    ∃ stF e,
      req parse decode methodParse headersParse net allowed_hosts st mem
        pu lu pm lm ph lh pb lb sp rp =
        some ⟨stF, writtenMem mem sp (u16le r.status), true, .error e⟩ ∧
      outcome (.error e) ≠ 0 ∧
      readBytes (writtenMem mem sp (u16le r.status)) sp 2 =
        u16le r.status := by
  have hw : memWrite mem sp (u16le r.status) =
      .ok (writtenMem mem sp (u16le r.status)) :=
    memWrite_ok mem sp _ (by rw [u16le_length]; omega)
  have hrb : readBytes (writtenMem mem sp (u16le r.status)) sp 2 =
      u16le r.status := by
    rw [show (2 : Nat) = (u16le r.status).length from rfl]
    exact readBytes_writtenMem_self mem sp _ (by rw [u16le_length]; omega)
  rcases hfail with halloc | ⟨st1, handle, halloc, hrp⟩
  · refine ⟨st, .tooManySessions, ?_, by simp [outcome, errorCode], hrb⟩
    simp only [req, hurl, hmeth, hmp, hbody, hhdr, hhp, hallow, hnet, hw,
      halloc]
  · have hw2 : memWrite (writtenMem mem sp (u16le r.status)) rp
        (u32le handle) = .error .memoryAccessError := by
      apply memWrite_err
      rw [u32le_length,
        length_writtenMem mem sp _ (by rw [u16le_length]; omega)]
      omega
    refine ⟨st1, .memoryAccessError, ?_, by simp [outcome, errorCode],
      hrb⟩
    simp only [req, hurl, hmeth, hmp, hbody, hhdr, hhp, hallow, hnet, hw,
      halloc, hw2]

/-- Witness for C10: a concrete call whose handle write lands out of
bounds returns code 3 with the status bytes already written. -/
theorem c10_witness :
    ∃ stF e,
      req (fun _ => some ⟨some "h"⟩) (fun _ => some "u")
        (fun _ => some "GET") (fun _ => some [])
        (fun _ _ _ _ => .ok ⟨200, [], [9]⟩) (some ["x"])
        ⟨[], 0⟩ [0, 0] 0 0 0 0 0 0 0 0 0 5 =
        some ⟨stF, writtenMem [0, 0] 0 (u16le 200), true, .error e⟩ ∧
      outcome (.error e) ≠ 0 ∧
      readBytes (writtenMem [0, 0] 0 (u16le 200)) 0 2 = u16le 200 :=
  c10_status_before_alloc (fun _ => some ⟨some "h"⟩) (fun _ => some "u")
    (fun _ => some "GET") (fun _ => some [])
    (fun _ _ _ _ => .ok ⟨200, [], [9]⟩) (some ["x"]) ⟨[], 0⟩ [0, 0]
    0 0 0 0 0 0 0 0 0 5 "u" "u" "GET" "u" [] [] ⟨200, [], [9]⟩
    (by decide) (by decide) rfl (by decide) (by decide) rfl (by decide)
    rfl (by decide)
    (Or.inr ⟨⟨[(0, ⟨[], ⟨[9], 0⟩⟩)], 0⟩, 0, by decide, by decide⟩)

/-! ### C8: handle lifecycle -/

/-- C8: immediately after a successful issue-request, the allocated
handle — the very value written back into guest memory — is live:
body-read and header-read on it never fail with `InvalidHandle`, and
close succeeds.  Strictly after closing it, body-read and header-read
on it fail with `InvalidHandle` (code 1) for every argument, and close
on an unknown or already-closed handle is a no-op success: close is
idempotent. -/
theorem c8_handle_lifecycle (parse : String → Option Url)
    (decode : List Nat → Option String)
    (methodParse : String → Option String)
    (headersParse : String → Option HeaderMap)
    (net : String → String → HeaderMap → List Nat →
      Except HttpError NetResponse)
    (allowed_hosts : Option (List String)) (st st1 : State)
    (mem : List Nat) (pu lu pm lm ph lh pb lb sp rp handle : Nat)
    (url methodStr method headersStr : String)
    (req_body : List Nat) (headers : HeaderMap) (r : NetResponse)
    (hurl : string_from_memory decode mem pu lu = .ok url)
    (hmeth : string_from_memory decode mem pm lm = .ok methodStr)
    (hmp : methodParse methodStr = some method)
    (hbody : slice_from_memory mem pb lb = .ok req_body)
    (hhdr : string_from_memory decode mem ph lh = .ok headersStr)
    (hhp : headersParse headersStr = some headers)
    (hallow : is_allowed parse url allowed_hosts = some (.ok true))
    (hnet : net url method headers req_body = .ok r)
    (hsp : sp + 2 ≤ mem.length)
    (halloc : allocHandle st ⟨r.headers, ⟨r.body, 0⟩⟩ =
      .ok (st1, handle))
    (hrp : rp + 4 ≤ mem.length) :
    (req parse decode methodParse headersParse net allowed_hosts st mem
        pu lu pm lm ph lh pb lb sp rp =
      some ⟨st1, writtenMem (writtenMem mem sp (u16le r.status)) rp
        (u32le handle), true, .ok ()⟩ ∧
     readBytes (writtenMem (writtenMem mem sp (u16le r.status)) rp
       (u32le handle)) rp 4 = u32le handle) ∧
    mapGet st1.responses handle = some ⟨r.headers, ⟨r.body, 0⟩⟩ ∧
    (∀ mem2 bp bl rp2,
      (HostCalls.body_read st1 mem2 handle bp bl rp2).2.2 ≠
        .error (.invalidHandle handle)) ∧
    (∀ dec2 mem2 np nl vp vl wp,
      (HostCalls.header_get dec2 st1 mem2 handle np nl vp vl wp).2 ≠
        .error (.invalidHandle handle)) ∧
    HostCalls.close st1 handle =
      (⟨mapRemove st1.responses handle, st1.current_handle⟩, .ok ()) ∧
    mapGet (mapRemove st1.responses handle) handle = none ∧
    (∀ mem2 bp bl rp2,
      HostCalls.body_read
          ⟨mapRemove st1.responses handle, st1.current_handle⟩ mem2
          handle bp bl rp2 =
        (⟨mapRemove st1.responses handle, st1.current_handle⟩, mem2,
         .error (.invalidHandle handle))) ∧
    (∀ dec2 mem2 np nl vp vl wp,
      HostCalls.header_get dec2
          ⟨mapRemove st1.responses handle, st1.current_handle⟩ mem2
          handle np nl vp vl wp =
        (mem2, .error (.invalidHandle handle))) ∧
    errorCode (.invalidHandle handle) = 1 ∧
    (∀ st0 h0, mapGet st0.responses h0 = none →
      HostCalls.close st0 h0 = (st0, .ok ())) := by
  have hmem1 : (writtenMem mem sp (u16le r.status)).length = mem.length :=
    length_writtenMem mem sp _ (by rw [u16le_length]; omega)
  have hw : memWrite mem sp (u16le r.status) =
      .ok (writtenMem mem sp (u16le r.status)) :=
    memWrite_ok mem sp _ (by rw [u16le_length]; omega)
  have hw2 : memWrite (writtenMem mem sp (u16le r.status)) rp
      (u32le handle) =
      .ok (writtenMem (writtenMem mem sp (u16le r.status)) rp
        (u32le handle)) :=
    memWrite_ok _ rp _ (by rw [u32le_length, hmem1]; omega)
  have hlive : mapGet st1.responses handle =
      some ⟨r.headers, ⟨r.body, 0⟩⟩ := by
    unfold allocHandle at halloc
    cases hpl : probeLoop st.responses st.current_handle
        st.current_handle u32Size with
    | error e =>
      rw [hpl] at halloc
      cases halloc
    | ok h0 =>
      rw [hpl] at halloc
      obtain ⟨hst', hh⟩ := Prod.mk.injEq .. ▸ Except.ok.inj halloc
      rw [← hst', ← hh]
      exact mapGet_mapInsert_self _ _ _
  have hremoved : mapGet (mapRemove st1.responses handle) handle = none :=
    mapGet_mapRemove_self _ _
  refine ⟨⟨?_, ?_⟩, hlive, ?_, ?_, rfl, hremoved, ?_, ?_, rfl, ?_⟩
  · simp only [req, hurl, hmeth, hmp, hbody, hhdr, hhp, hallow, hnet, hw,
      halloc, hw2]
  · rw [show (4 : Nat) = (u32le handle).length from rfl]
    exact readBytes_writtenMem_self _ rp _
      (by rw [u32le_length, hmem1]; omega)
  · intro mem2 bp bl rp2
    exact body_read_no_invalid st1 mem2 handle bp bl rp2 _ hlive
  · intro dec2 mem2 np nl vp vl wp
    exact header_get_no_invalid dec2 st1 mem2 handle np nl vp vl wp _
      hlive
  · intro mem2 bp bl rp2
    simp only [HostCalls.body_read, hremoved]
  · intro dec2 mem2 np nl vp vl wp
    simp only [HostCalls.header_get, hremoved]
  · intro st0 h0 habs
    unfold HostCalls.close
    rw [mapRemove_of_absent st0.responses h0 habs]

/-- Witness for C8: a concrete successful request allocating handle 0,
then closed, then closed again. -/
theorem c8_witness :
    (req (fun _ => some ⟨some "h"⟩) (fun _ => some "u")
        (fun _ => some "GET") (fun _ => some [])
        (fun _ _ _ _ => .ok ⟨200, [], [9]⟩) (some ["x"])
        ⟨[], 0⟩ [0, 0, 0, 0, 0, 0] 0 0 0 0 0 0 0 0 0 2 =
      some ⟨⟨[(0, ⟨[], ⟨[9], 0⟩⟩)], 0⟩,
        writtenMem (writtenMem [0, 0, 0, 0, 0, 0] 0 (u16le 200)) 2
          (u32le 0), true, .ok ()⟩ ∧
     readBytes (writtenMem (writtenMem [0, 0, 0, 0, 0, 0] 0 (u16le 200))
       2 (u32le 0)) 2 4 = u32le 0) ∧
    mapGet (⟨[(0, ⟨[], ⟨[9], 0⟩⟩)], 0⟩ : State).responses 0 =
      some ⟨[], ⟨[9], 0⟩⟩ ∧
    (∀ mem2 bp bl rp2,
      (HostCalls.body_read ⟨[(0, ⟨[], ⟨[9], 0⟩⟩)], 0⟩ mem2 0 bp bl
        rp2).2.2 ≠ .error (.invalidHandle 0)) ∧
    (∀ dec2 mem2 np nl vp vl wp,
      (HostCalls.header_get dec2 ⟨[(0, ⟨[], ⟨[9], 0⟩⟩)], 0⟩ mem2 0 np nl
        vp vl wp).2 ≠ .error (.invalidHandle 0)) ∧
    HostCalls.close ⟨[(0, ⟨[], ⟨[9], 0⟩⟩)], 0⟩ 0 =
      (⟨mapRemove (⟨[(0, ⟨[], ⟨[9], 0⟩⟩)], 0⟩ : State).responses 0, 0⟩,
       .ok ()) ∧
    mapGet (mapRemove (⟨[(0, ⟨[], ⟨[9], 0⟩⟩)], 0⟩ : State).responses 0)
      0 = none ∧
    (∀ mem2 bp bl rp2,
      HostCalls.body_read
          ⟨mapRemove (⟨[(0, ⟨[], ⟨[9], 0⟩⟩)], 0⟩ : State).responses 0, 0⟩
          mem2 0 bp bl rp2 =
        (⟨mapRemove (⟨[(0, ⟨[], ⟨[9], 0⟩⟩)], 0⟩ : State).responses 0, 0⟩,
         mem2, .error (.invalidHandle 0))) ∧
    (∀ dec2 mem2 np nl vp vl wp,
      HostCalls.header_get dec2
          ⟨mapRemove (⟨[(0, ⟨[], ⟨[9], 0⟩⟩)], 0⟩ : State).responses 0, 0⟩
          mem2 0 np nl vp vl wp =
        (mem2, .error (.invalidHandle 0))) ∧
    errorCode (.invalidHandle 0) = 1 ∧
    (∀ st0 h0, mapGet st0.responses h0 = none →
      HostCalls.close st0 h0 = (st0, .ok ())) :=
  c8_handle_lifecycle (fun _ => some ⟨some "h"⟩) (fun _ => some "u")
    (fun _ => some "GET") (fun _ => some [])
    (fun _ _ _ _ => .ok ⟨200, [], [9]⟩) (some ["x"]) ⟨[], 0⟩
    ⟨[(0, ⟨[], ⟨[9], 0⟩⟩)], 0⟩ [0, 0, 0, 0, 0, 0] 0 0 0 0 0 0 0 0 0 2 0
    "u" "u" "GET" "u" [] [] ⟨200, [], [9]⟩
    (by decide) (by decide) rfl (by decide) (by decide) rfl (by decide)
    rfl (by decide) (by decide) (by decide)

end WasiHttp
